import Mathlib

/-!
# Verification of the document-summarizer pipeline (`src/app.py`)

Shallow embedding of the pure core of the upload pipeline:

* `split_text` — the greedy word-wrap (`app.py` lines 70–82);
* `convert_docx_to_pdf` — the docx canonicalization/pagination loop
  (`app.py` lines 84–99), modelled as the sequence of `(text, y)` draw
  calls it performs;
* `renderSummaryPdf` — the summary-PDF pagination loop
  (`app.py` lines 179–187);
* `upload_file` — the orchestrator (`app.py` lines 120–192), with the
  external collaborators (blob store, form recognizer, chat completion,
  file writes) modelled as `Except`-valued capabilities and every
  collaborator invocation recorded in a trace.

Python strings are modelled as `List Char`.
-/

set_option autoImplicit false

namespace DocSummarizer

/-- A Python string, modelled as its list of characters. -/
abbrev Str := List Char

/-- Convert a Lean string literal into the model type. -/
def toStr (s : String) : Str := s.data

/-- Helper for `pySplit`: scan the characters, `acc` holding the current
word reversed.  Mirrors CPython `str.split()` with no separator argument:
runs of whitespace separate words and produce no empty words. -/
def pySplitAux : Str → Str → List Str
  | [], acc => if acc.isEmpty then [] else [acc.reverse]
  | c :: cs, acc =>
    if c.isWhitespace then
      (if acc.isEmpty then [] else [acc.reverse]) ++ pySplitAux cs []
    else
      pySplitAux cs (c :: acc)

/-- `text.split()` from `split_text` (`app.py` line 71): split on
whitespace runs, discarding empty pieces. -/
def pySplit (s : Str) : List Str := pySplitAux s []

/-- One iteration of the loop in `split_text` (`app.py` lines 74–79):
state is `(lines, line)`; the word is appended to `line` (with a space if
`line` is non-empty) when `len(line) + len(word) + 1 <= max_length`,
otherwise `line` is pushed onto `lines` and the word starts a new line. -/
def split_text_step (max_length : Nat) (st : List Str × Str) (word : Str) :
    List Str × Str :=
  if st.2.length + word.length + 1 ≤ max_length then
    (st.1, st.2 ++ (if st.2.isEmpty then [] else [' ']) ++ word)
  else
    (st.1 ++ [st.2], word)

/-- `split_text(text, max_length)` (`app.py` lines 70–82). -/
def split_text (text : Str) (max_length : Nat) : List Str :=
  let st := (pySplit text).foldl (split_text_step max_length) ([], [])
  if st.2.isEmpty then st.1 else st.1 ++ [st.2]

/-- Python `str.strip()`: drop leading and trailing whitespace. -/
def strip (s : Str) : Str :=
  ((s.dropWhile Char.isWhitespace).reverse.dropWhile Char.isWhitespace).reverse

/-- Python `str.lower()` on a filename extension. -/
def lower (s : Str) : Str := s.map Char.toLower

/-- Python `" ".join(lines)`. -/
def joinWS : List Str → Str
  | [] => []
  | [l] => l
  | l :: l2 :: ls => l ++ ' ' :: joinWS (l2 :: ls)

/-- The word sequence carried by a list of lines: the concatenation of the
`pySplit` of each line. -/
def wordsOf (ls : List Str) : List Str := (ls.map pySplit).flatten

/-- Length of the longest word in a word list (0 when empty). -/
def maxWordLen (ws : List Str) : Nat :=
  ws.foldr (fun w m => max w.length m) 0

/-- The greedy wrap rule, written as a direct recursion on the word list
with the current line buffer as argument: a word joins the buffer (with a
single separating space exactly when the buffer is non-empty) when
`buffer.length + word.length + 1 ≤ W`; otherwise the buffer — even an
empty one — is closed as a completed line and the word starts a new
buffer; at the end a non-empty buffer is flushed.  Used to state the
amended form of the per-word wrap rule and compare it with the
accumulator-style loop of `split_text`. -/
def greedyWrap (W : Nat) : List Str → Str → List Str
  | [], line => if line.isEmpty then [] else [line]
  | w :: ws, line =>
    if line.length + w.length + 1 ≤ W then
      greedyWrap W ws (line ++ (if line.isEmpty then [] else [' ']) ++ w)
    else
      line :: greedyWrap W ws w

/-! ## Pagination model (`reportlab` canvas coordinates)

`letter = (612, 792)`, `inch = 72`.  Both loops start the cursor at
`height - inch = 720`, draw each wrapped line at the current `y`, subtract
14, and reset to the top of a fresh page when `y` drops below `inch`. -/

/-- `inch` from `reportlab.lib.units`. -/
def inch : Int := 72

/-- The page height of `letter` from `reportlab.lib.pagesizes`. -/
def pageHeight : Int := 792

/-- The fixed vertical step `y -= 14`. -/
def lineStep : Int := 14

/-- The top-margin cursor position `height - inch`. -/
def topY : Int := pageHeight - inch

/-- Cursor advance after drawing one line: `y -= 14; if y < inch:
showPage(); y = height - inch` (`app.py` lines 95–98 and 183–186). -/
def nextY (y : Int) : Int :=
  if y - lineStep < inch then topY else y - lineStep

/-- `n`-fold iteration of the cursor advance. -/
def iterNextY : Nat → Int → Int
  | 0, y => y
  | n + 1, y => iterNextY n (nextY y)

/-- The inner draw loop: draw each line at the running cursor, returning
the `(text, y)` draw calls and the final cursor. -/
def drawLinesAux : List Str → Int → List (Str × Int) × Int
  | [], y => ([], y)
  | l :: ls, y =>
    let r := drawLinesAux ls (nextY y)
    ((l, y) :: r.1, r.2)

/-- The paragraph loop of `convert_docx_to_pdf` (`app.py` lines 89–98):
strip each paragraph, skip falsy (empty) text, wrap the rest at width 90
and feed the lines to the shared cursor. -/
def renderParas : List Str → Int → List (Str × Int) × Int
  | [], y => ([], y)
  | para :: ps, y =>
    let text := strip para
    if text.isEmpty then renderParas ps y
    else
      let d := drawLinesAux (split_text text 90) y
      let r := renderParas ps d.2
      (d.1 ++ r.1, r.2)

/-- `convert_docx_to_pdf` (`app.py` lines 84–99), modelled as the ordered
sequence of `drawString(inch, y, line)` calls it performs on the
paragraphs of the parsed document, starting at `y = height - inch`. -/
def convert_docx_to_pdf (paras : List Str) : List (Str × Int) :=
  (renderParas paras topY).1

/-- The summary-PDF rendering loop (`app.py` lines 179–187): wrap the
summary at width 90 and draw with the same cursor discipline. -/
def renderSummaryPdf (summary_text : Str) : List (Str × Int) :=
  (drawLinesAux (split_text summary_text 90) topY).1

/-- The drawn list starts at cursor `y` and each subsequent draw happens
at the advanced cursor. -/
def ChainFromY : Int → List (Str × Int) → Prop
  | _, [] => True
  | y, p :: ps => p.2 = y ∧ ChainFromY (nextY y) ps

/-! ## Orchestrator model (`upload_file`, `app.py` lines 120–192)

External collaborators are `Except`-valued capabilities: `Except.error e`
models the call raising an exception whose `str` is `e`.  Every
collaborator invocation is recorded, in order, in a `CallTag` trace. -/

/-- `os.path.splitext(filename)[1]`: the extension starting at the last
dot, except that a dot inside the leading run of dots yields no
extension. -/
def splitextExt (filename : Str) : Str :=
  let lead := filename.takeWhile (fun c => c == '.')
  let rest := filename.drop lead.length
  if rest.contains '.' then
    '.' :: (rest.reverse.takeWhile (fun c => c != '.')).reverse
  else []

/-- The allowed-extension list `[".pdf", ".doc", ".docx"]`
(`app.py` line 130). -/
def allowedExts : List Str := [toStr ".pdf", toStr ".doc", toStr ".docx"]

/-- The `".docx"` extension. -/
def dotDocx : Str := toStr ".docx"

/-- Tags identifying each side-effecting collaborator call made by
`upload_file`, in program order. -/
inductive CallTag where
  | saveTemp
  | convertDocx
  | uploadBlob
  | analyze
  | chat
  | writeTxt
  | writePdf
deriving DecidableEq

/-- The external collaborators of the pipeline.  `Except.error e` models
the underlying call raising an exception with message `e`. -/
structure Collaborators where
  /-- `file.save(temp_path)` (`app.py` line 134). -/
  saveTemp : Except String Unit
  /-- `convert_docx_to_pdf(temp_path, pdf_path)` (`app.py` line 139) at
  the orchestrator boundary: opening the document or saving the canvas
  may raise. -/
  convertDocx : Except String Unit
  /-- `upload_to_blob` (`app.py` line 147): returns the SAS blob URL. -/
  upload_to_blob : Except String Str
  /-- `begin_analyze_document_from_url(...).result()` (`app.py` lines
  149–150): given the blob URL, returns the pages as lists of lines. -/
  analyze : Str → Except String (List (List Str))
  /-- `openai_client.chat.completions.create` (`app.py` lines 162–168):
  given the system message and the user prompt, returns the completion
  content. -/
  chat : Str → Str → Except String Str
  /-- Writing the plain-text summary artifact (`app.py` lines 173–175). -/
  writeTxt : Str → Except String Unit
  /-- Writing the summary-PDF artifact (`app.py` lines 178–187), handed
  the drawn lines. -/
  writePdf : List (Str × Int) → Except String Unit

/-- The HTTP response of `upload_file`.  `unhandled` models an exception
propagating out of the handler uncaught (no `jsonify` response is
produced). -/
inductive HttpResponse where
  | jsonSummary (summary : Str) (status : Nat)
  | jsonError (message : String) (status : Nat)
  | unhandled (message : String)
deriving DecidableEq

/-- The request, reduced to what `upload_file` inspects: whether a file
part is present and its filename. -/
structure UploadRequest where
  file : Option Str

/-- `extracted_text` (`app.py` lines 152–155): every line of every page,
each followed by a newline, in page-then-line order. -/
def extractedText (pages : List (List Str)) : Str :=
  (pages.flatten.map (fun line => line ++ ['\n'])).flatten

/-- The fixed instruction prefix of the prompt (`app.py` lines 157–160). -/
def promptPrefix : Str :=
  toStr ("You are a legal assistant. Summarize the following legal " ++
    "document and extract key clauses, dates, parties involved, and " ++
    "obligations:\n\n")

/-- The prompt handed to the summarization client. -/
def mkPrompt (pages : List (List Str)) : Str :=
  promptPrefix ++ extractedText pages

/-- The fixed system message (`app.py` line 165). -/
def systemContent : Str := toStr "You are a helpful legal assistant."

/-- The body of the `try` block (`app.py` lines 146–189): blob upload,
extraction, summarization, persistence of the two summary artifacts, then
the summary value.  Returns the result together with the trace of
collaborator calls made. -/
def tryBody (c : Collaborators) : Except String Str × List CallTag :=
  match c.upload_to_blob with
  | .error e => (.error e, [.uploadBlob])
  | .ok blob_url =>
    match c.analyze blob_url with
    | .error e => (.error e, [.uploadBlob, .analyze])
    | .ok pages =>
      match c.chat systemContent (mkPrompt pages) with
      | .error e => (.error e, [.uploadBlob, .analyze, .chat])
      | .ok content =>
        let summary_text := strip content
        match c.writeTxt summary_text with
        | .error e => (.error e, [.uploadBlob, .analyze, .chat, .writeTxt])
        | .ok _ =>
          match c.writePdf (renderSummaryPdf summary_text) with
          | .error e =>
            (.error e, [.uploadBlob, .analyze, .chat, .writeTxt, .writePdf])
          | .ok _ =>
            (.ok summary_text,
              [.uploadBlob, .analyze, .chat, .writeTxt, .writePdf])

/-- `upload_file` (`app.py` lines 120–192).

Modelled from the spec: `werkzeug.secure_filename` and `os.path.splitext`
are library code outside this repository; the spec specifies validation
by case-insensitive filename-suffix inspection only, so the filename is
used directly and only `splitextExt` models the suffix extraction.

Control flow from the source: validation (no file / empty filename →
400; extension not in the allowed list → 400), then `file.save`, then —
for `.docx` only — `convert_docx_to_pdf`, both OUTSIDE the `try` block,
then the `try` body whose exceptions become `jsonError e 500`. -/
def upload_file (req : UploadRequest) (c : Collaborators) :
    HttpResponse × List CallTag :=
  match req.file with
  | none => (.jsonError "No valid file uploaded" 400, [])
  | some filename =>
    if filename.isEmpty then (.jsonError "No valid file uploaded" 400, [])
    else
      let file_ext := lower (splitextExt filename)
      if allowedExts.contains file_ext then
        match c.saveTemp with
        | .error e => (.unhandled e, [.saveTemp])
        | .ok _ =>
          if file_ext = dotDocx then
            match c.convertDocx with
            | .error e => (.unhandled e, [.saveTemp, .convertDocx])
            | .ok _ =>
              let r := tryBody c
              (match r.1 with
               | .ok s => .jsonSummary s 200
               | .error e => .jsonError e 500,
               [CallTag.saveTemp, CallTag.convertDocx] ++ r.2)
          else
            let r := tryBody c
            (match r.1 with
             | .ok s => .jsonSummary s 200
             | .error e => .jsonError e 500,
             CallTag.saveTemp :: r.2)
      else (.jsonError "Unsupported file type" 400, [])

/-! ## Concrete test fixtures -/

/-- A concrete blob URL. -/
def url0 : Str := toStr "https://blob.example/doc.pdf"

/-- A concrete extraction result: one page with one line. -/
def pages0 : List (List Str) := [[toStr "Party A agrees to pay Party B."]]

/-- A concrete chat completion content, with surrounding whitespace. -/
def content0 : Str := toStr " A summary. "

/-- Collaborators for which every call succeeds. -/
def okCollab : Collaborators where
  saveTemp := .ok ()
  convertDocx := .ok ()
  upload_to_blob := .ok url0
  analyze := fun _ => .ok pages0
  chat := fun _ _ => .ok content0
  writeTxt := fun _ => .ok ()
  writePdf := fun _ => .ok ()

/-- Collaborators whose docx conversion raises. -/
def convFailCollab : Collaborators where
  saveTemp := .ok ()
  convertDocx := .error "boom"
  upload_to_blob := .ok url0
  analyze := fun _ => .ok pages0
  chat := fun _ _ => .ok content0
  writeTxt := fun _ => .ok ()
  writePdf := fun _ => .ok ()

/-- Collaborators whose blob upload raises. -/
def uploadFailCollab : Collaborators where
  saveTemp := .ok ()
  convertDocx := .ok ()
  upload_to_blob := .error "upload failed"
  analyze := fun _ => .ok pages0
  chat := fun _ _ => .ok content0
  writeTxt := fun _ => .ok ()
  writePdf := fun _ => .ok ()

/-- Collaborators whose plain-text persistence write raises after a
successful summarization. -/
def persistFailCollab : Collaborators where
  saveTemp := .ok ()
  convertDocx := .ok ()
  upload_to_blob := .ok url0
  analyze := fun _ => .ok pages0
  chat := fun _ _ => .ok content0
  writeTxt := fun _ => .error "disk full"
  writePdf := fun _ => .ok ()

/-! ## Lemmas about `pySplit` -/

theorem pySplitAux_mem_ne_nil (s : Str) :
    ∀ (acc : Str), ∀ w ∈ pySplitAux s acc, w ≠ [] := by
  induction s with
  | nil =>
    intro acc w hw
    simp only [pySplitAux] at hw
    split at hw
    · simp at hw
    · next h =>
      simp only [List.mem_singleton] at hw
      subst hw
      simpa [List.isEmpty_iff] using h
  | cons c cs ih =>
    intro acc w hw
    simp only [pySplitAux] at hw
    split at hw
    · rcases List.mem_append.mp hw with hw | hw
      · split at hw
        · simp at hw
        · next h =>
          simp only [List.mem_singleton] at hw
          subst hw
          simpa [List.isEmpty_iff] using h
      · exact ih [] w hw
    · exact ih (c :: acc) w hw

theorem pySplit_mem_ne_nil (s : Str) : ∀ w ∈ pySplit s, w ≠ [] :=
  pySplitAux_mem_ne_nil s []

theorem pySplitAux_mem_no_ws (s : Str) :
    ∀ (acc : Str), (∀ c ∈ acc, c.isWhitespace = false) →
      ∀ w ∈ pySplitAux s acc, ∀ c ∈ w, c.isWhitespace = false := by
  induction s with
  | nil =>
    intro acc hacc w hw c hc
    simp only [pySplitAux] at hw
    split at hw
    · simp at hw
    · simp only [List.mem_singleton] at hw
      subst hw
      exact hacc c (List.mem_reverse.mp hc)
  | cons a cs ih =>
    intro acc hacc w hw c hc
    simp only [pySplitAux] at hw
    split at hw
    · rcases List.mem_append.mp hw with hw | hw
      · split at hw
        · simp at hw
        · simp only [List.mem_singleton] at hw
          subst hw
          exact hacc c (List.mem_reverse.mp hc)
      · exact ih [] (by simp) w hw c hc
    · next ha =>
      refine ih (a :: acc) ?_ w hw c hc
      intro d hd
      rcases List.mem_cons.mp hd with rfl | hd
      · simpa using ha
      · exact hacc d hd

theorem pySplit_mem_no_ws (s : Str) :
    ∀ w ∈ pySplit s, ∀ c ∈ w, c.isWhitespace = false :=
  pySplitAux_mem_no_ws s [] (by simp)

theorem pySplitAux_append_space (b : Str) (a : Str) :
    ∀ (acc : Str),
      pySplitAux (a ++ ' ' :: b) acc = pySplitAux a acc ++ pySplitAux b [] := by
  induction a with
  | nil =>
    intro acc
    simp [pySplitAux]
  | cons c cs ih =>
    intro acc
    by_cases hc : c.isWhitespace
    · simp [pySplitAux, hc, ih, List.append_assoc]
    · simp [pySplitAux, hc, ih]

theorem pySplit_append_space (a b : Str) :
    pySplit (a ++ ' ' :: b) = pySplit a ++ pySplit b :=
  pySplitAux_append_space b a []

theorem pySplitAux_no_ws_eq (w : Str) :
    ∀ (acc : Str), (∀ c ∈ w, c.isWhitespace = false) →
      pySplitAux w acc =
        if (acc.reverse ++ w).isEmpty then [] else [acc.reverse ++ w] := by
  induction w with
  | nil =>
    intro acc _
    simp only [pySplitAux, List.append_nil]
    by_cases h : acc.isEmpty
    · simp [h, List.isEmpty_iff.mp h]
    · have : acc ≠ [] := fun hn => h (by simp [hn])
      simp [h, List.isEmpty_iff, this]
  | cons c cs ih =>
    intro acc hw
    have hc : c.isWhitespace = false := hw c (by simp)
    simp only [pySplitAux, hc]
    rw [if_neg (by simp [hc])]
    rw [ih (c :: acc) (fun d hd => hw d (List.mem_cons_of_mem c hd))]
    simp

theorem pySplit_single_word (w : Str) (hne : w ≠ [])
    (hw : ∀ c ∈ w, c.isWhitespace = false) : pySplit w = [w] := by
  unfold pySplit
  rw [pySplitAux_no_ws_eq w [] hw]
  simp [hne]

theorem pySplit_joinWS (ls : List Str) : pySplit (joinWS ls) = wordsOf ls := by
  induction ls with
  | nil => simp [joinWS, pySplit, pySplitAux, wordsOf]
  | cons l ls ih =>
    cases ls with
    | nil => simp [joinWS, wordsOf]
    | cons l2 ls2 =>
      simp only [joinWS]
      rw [pySplit_append_space, ih]
      simp [wordsOf]

/-! ## Lemmas about the `split_text` fold -/

theorem pySplit_nil : pySplit ([] : Str) = [] := rfl

theorem wordsOf_nil : wordsOf [] = [] := rfl

theorem wordsOf_append (a b : List Str) :
    wordsOf (a ++ b) = wordsOf a ++ wordsOf b := by
  simp [wordsOf]

theorem wordsOf_singleton (l : Str) : wordsOf [l] = pySplit l := by
  simp [wordsOf]

/-- The running invariant of the wrap loop: the words of the accumulated
lines followed by the words of the current buffer are exactly the words
already consumed. -/
theorem foldl_step_words (W : Nat) :
    ∀ (ws : List Str) (lines : List Str) (line : Str),
      (∀ w ∈ ws, w ≠ [] ∧ ∀ c ∈ w, c.isWhitespace = false) →
      wordsOf ((ws.foldl (split_text_step W) (lines, line)).1) ++
          pySplit ((ws.foldl (split_text_step W) (lines, line)).2) =
        wordsOf lines ++ pySplit line ++ ws := by
  intro ws
  induction ws with
  | nil => intro lines line _; simp
  | cons w ws ih =>
    intro lines line hws
    obtain ⟨hne, hnws⟩ := hws w (by simp)
    have htail : ∀ u ∈ ws, u ≠ [] ∧ ∀ c ∈ u, c.isWhitespace = false :=
      fun u hu => hws u (List.mem_cons_of_mem w hu)
    simp only [List.foldl_cons]
    by_cases hfit : line.length + w.length + 1 ≤ W
    · have hstep : split_text_step W (lines, line) w =
          (lines, line ++ (if line.isEmpty then [] else [' ']) ++ w) := by
        simp [split_text_step, hfit]
      rw [hstep, ih lines _ htail]
      by_cases hl : line.isEmpty
      · have : line = [] := List.isEmpty_iff.mp hl
        subst this
        simp [pySplit_single_word w hne hnws, pySplit_nil]
      · rw [if_neg hl]
        have : line ++ [' '] ++ w = line ++ ' ' :: w := by simp
        rw [this, pySplit_append_space, pySplit_single_word w hne hnws]
        simp
    · have hstep : split_text_step W (lines, line) w = (lines ++ [line], w) := by
        simp [split_text_step, hfit]
      rw [hstep, ih (lines ++ [line]) w htail, wordsOf_append,
        wordsOf_singleton, pySplit_single_word w hne hnws]
      simp

/-- The lines produced by `split_text` carry exactly the words of the
input text. -/
theorem wordsOf_split_text (text : Str) (W : Nat) :
    wordsOf (split_text text W) = pySplit text := by
  have h := foldl_step_words W (pySplit text) [] []
    (fun w hw => ⟨pySplit_mem_ne_nil text w hw, pySplit_mem_no_ws text w hw⟩)
  rw [wordsOf_nil, pySplit_nil, List.nil_append, List.nil_append] at h
  simp only [split_text]
  by_cases h2 :
      (((pySplit text).foldl (split_text_step W) ([], [])).2).isEmpty
  · have h3 : ((pySplit text).foldl (split_text_step W) ([], [])).2 = [] :=
      List.isEmpty_iff.mp h2
    rw [if_pos h2]
    rw [h3, pySplit_nil, List.append_nil] at h
    exact h
  · rw [if_neg h2, wordsOf_append, wordsOf_singleton]
    exact h

/-- Words of the lines, re-joined with single spaces, split back to the
words of the input: the shared kernel of the word-preservation and
idempotence claims. -/
theorem words_preserved (text : Str) (W : Nat) :
    pySplit (joinWS (split_text text W)) = pySplit text := by
  rw [pySplit_joinWS, wordsOf_split_text]

/-- `split_text` depends on its text argument only through its word
sequence. -/
theorem split_text_congr {t1 t2 : Str} (W : Nat) (h : pySplit t1 = pySplit t2) :
    split_text t1 W = split_text t2 W := by
  unfold split_text
  rw [h]

/-- The accumulator-style wrap loop of `split_text`, including the final
flush, computes the direct greedy recursion `greedyWrap`. -/
theorem foldl_step_eq_greedyWrap (W : Nat) :
    ∀ (ws : List Str) (lines : List Str) (line : Str),
      (if (ws.foldl (split_text_step W) (lines, line)).2.isEmpty
        then (ws.foldl (split_text_step W) (lines, line)).1
        else (ws.foldl (split_text_step W) (lines, line)).1 ++
          [(ws.foldl (split_text_step W) (lines, line)).2]) =
      lines ++ greedyWrap W ws line := by
  intro ws
  induction ws with
  | nil =>
    intro lines line
    simp only [List.foldl_nil, greedyWrap]
    by_cases h : line.isEmpty
    · simp [h]
    · simp [h]
  | cons w ws ih =>
    intro lines line
    simp only [List.foldl_cons, greedyWrap]
    by_cases hfit : line.length + w.length + 1 ≤ W
    · have hstep : split_text_step W (lines, line) w =
          (lines, line ++ (if line.isEmpty then [] else [' ']) ++ w) := by
        simp [split_text_step, hfit]
      rw [hstep, if_pos hfit, ih]
    · have hstep : split_text_step W (lines, line) w = (lines ++ [line], w) := by
        simp [split_text_step, hfit]
      rw [hstep, if_neg hfit, ih]
      simp

/-- The wrap loop only ever appends to the list of completed lines. -/
theorem foldl_step_fst_prefix (W : Nat) :
    ∀ (ws : List Str) (st : List Str × Str),
      ∃ suf, (ws.foldl (split_text_step W) st).1 = st.1 ++ suf := by
  intro ws
  induction ws with
  | nil => intro st; exact ⟨[], by simp⟩
  | cons w ws ih =>
    intro st
    simp only [List.foldl_cons]
    by_cases hfit : st.2.length + w.length + 1 ≤ W
    · have hstep : split_text_step W st w =
          (st.1, st.2 ++ (if st.2.isEmpty then [] else [' ']) ++ w) := by
        simp [split_text_step, hfit]
      rw [hstep]
      obtain ⟨suf, hsuf⟩ := ih (st.1, _)
      exact ⟨suf, hsuf⟩
    · have hstep : split_text_step W st w = (st.1 ++ [st.2], w) := by
        simp [split_text_step, hfit]
      rw [hstep]
      obtain ⟨suf, hsuf⟩ := ih (st.1 ++ [st.2], w)
      exact ⟨[st.2] ++ suf, by simpa [List.append_assoc] using hsuf⟩

/-- Provided every processed word is non-empty, the wrap loop keeps every
completed line after the first non-empty, and keeps the buffer non-empty
as soon as a line has been completed. -/
theorem foldl_step_tail_ne_nil (W : Nat) :
    ∀ (ws : List Str) (lines : List Str) (line : Str),
      (∀ w ∈ ws, w ≠ []) →
      (∀ l ∈ lines.tail, l ≠ []) →
      (lines ≠ [] → line ≠ []) →
      (∀ l ∈ (ws.foldl (split_text_step W) (lines, line)).1.tail, l ≠ []) ∧
        ((ws.foldl (split_text_step W) (lines, line)).1 ≠ [] →
          (ws.foldl (split_text_step W) (lines, line)).2 ≠ []) := by
  intro ws
  induction ws with
  | nil => intro lines line _ h1 h2; exact ⟨h1, h2⟩
  | cons w ws ih =>
    intro lines line hws h1 h2
    have hw : w ≠ [] := hws w (by simp)
    have htail : ∀ u ∈ ws, u ≠ [] := fun u hu => hws u (List.mem_cons_of_mem w hu)
    simp only [List.foldl_cons]
    by_cases hfit : line.length + w.length + 1 ≤ W
    · have hstep : split_text_step W (lines, line) w =
          (lines, line ++ (if line.isEmpty then [] else [' ']) ++ w) := by
        simp [split_text_step, hfit]
      rw [hstep]
      refine ih lines _ htail h1 ?_
      intro _ hcon
      exact hw (List.append_eq_nil.mp hcon).2
    · have hstep : split_text_step W (lines, line) w = (lines ++ [line], w) := by
        simp [split_text_step, hfit]
      rw [hstep]
      refine ih (lines ++ [line]) w htail ?_ (fun _ => hw)
      intro l hl
      cases lines with
      | nil => simp at hl
      | cons x xs =>
        simp only [List.cons_append, List.tail_cons] at hl
        rcases List.mem_append.mp hl with hl | hl
        · exact h1 l (by simpa using hl)
        · simp only [List.mem_singleton] at hl
          subst hl
          exact h2 (by simp)

/-- Provided every processed word comes from `words`, every completed
line and the buffer are each either within the width bound or a single
word of `words`. -/
theorem foldl_step_line_bound (W : Nat) (words : List Str) :
    ∀ (ws : List Str) (lines : List Str) (line : Str),
      (∀ w ∈ ws, w ∈ words) →
      (line.length ≤ W ∨ line ∈ words) →
      (∀ l ∈ lines, l.length ≤ W ∨ l ∈ words) →
      ((ws.foldl (split_text_step W) (lines, line)).2.length ≤ W ∨
          (ws.foldl (split_text_step W) (lines, line)).2 ∈ words) ∧
        (∀ l ∈ (ws.foldl (split_text_step W) (lines, line)).1,
          l.length ≤ W ∨ l ∈ words) := by
  intro ws
  induction ws with
  | nil => intro lines line _ h1 h2; exact ⟨h1, h2⟩
  | cons w ws ih =>
    intro lines line hws h1 h2
    have hwmem : w ∈ words := hws w (by simp)
    have htail : ∀ u ∈ ws, u ∈ words := fun u hu => hws u (List.mem_cons_of_mem w hu)
    simp only [List.foldl_cons]
    by_cases hfit : line.length + w.length + 1 ≤ W
    · have hstep : split_text_step W (lines, line) w =
          (lines, line ++ (if line.isEmpty then [] else [' ']) ++ w) := by
        simp [split_text_step, hfit]
      rw [hstep]
      refine ih lines _ htail (Or.inl ?_) h2
      by_cases hl : line.isEmpty
      · have : line = [] := List.isEmpty_iff.mp hl
        subst this
        simp only [List.length_nil, Nat.zero_add] at hfit
        simp [hl]
        omega
      · rw [if_neg hl]
        simp only [List.length_append, List.length_cons, List.length_nil]
        omega
    · have hstep : split_text_step W (lines, line) w = (lines ++ [line], w) := by
        simp [split_text_step, hfit]
      rw [hstep]
      refine ih (lines ++ [line]) w htail (Or.inr hwmem) ?_
      intro l hl
      rcases List.mem_append.mp hl with hl | hl
      · exact h2 l hl
      · simp only [List.mem_singleton] at hl
        subst hl
        exact h1

/-- Every member of a word list is bounded by `maxWordLen`. -/
theorem length_le_maxWordLen {ws : List Str} {w : Str} (h : w ∈ ws) :
    w.length ≤ maxWordLen ws := by
  induction ws with
  | nil => simp at h
  | cons x xs ih =>
    rcases List.mem_cons.mp h with rfl | h
    · simp [maxWordLen]
    · calc w.length ≤ maxWordLen xs := ih h
        _ ≤ maxWordLen (x :: xs) := by simp [maxWordLen]

/-! ## Lemmas about the pagination cursor -/

theorem nextY_lower (y : Int) : inch ≤ nextY y := by
  simp only [nextY, inch, topY, pageHeight, lineStep]
  split <;> omega

theorem nextY_upper {y : Int} (h : y ≤ topY) : nextY y ≤ topY := by
  simp only [topY, pageHeight, inch] at h
  simp only [nextY, inch, topY, pageHeight, lineStep]
  split <;> omega

theorem iterNextY_succ_add (m : Nat) :
    ∀ (n : Nat) (y : Int), iterNextY (m + n) y = iterNextY n (iterNextY m y) := by
  induction m with
  | zero => intro n y; simp [iterNextY]
  | succ m ih =>
    intro n y
    have : m + 1 + n = (m + n) + 1 := by omega
    rw [this]
    simp only [iterNextY]
    exact ih n (nextY y)

theorem drawLinesAux_length (ls : List Str) :
    ∀ y, (drawLinesAux ls y).1.length = ls.length := by
  induction ls with
  | nil => intro y; simp [drawLinesAux]
  | cons l ls ih => intro y; simp [drawLinesAux, ih]

theorem drawLinesAux_map_fst (ls : List Str) :
    ∀ y, (drawLinesAux ls y).1.map Prod.fst = ls := by
  induction ls with
  | nil => intro y; simp [drawLinesAux]
  | cons l ls ih => intro y; simp [drawLinesAux, ih]

theorem drawLinesAux_chain (ls : List Str) :
    ∀ y, ChainFromY y (drawLinesAux ls y).1 := by
  induction ls with
  | nil => intro y; simp [drawLinesAux, ChainFromY]
  | cons l ls ih =>
    intro y
    simp only [drawLinesAux]
    exact ⟨rfl, ih (nextY y)⟩

theorem drawLinesAux_snd (ls : List Str) :
    ∀ y, (drawLinesAux ls y).2 = iterNextY ls.length y := by
  induction ls with
  | nil => intro y; simp [drawLinesAux, iterNextY]
  | cons l ls ih =>
    intro y
    simp only [drawLinesAux, List.length_cons, iterNextY]
    exact ih (nextY y)

theorem ChainFromY_append :
    ∀ (xs : List (Str × Int)) (ys : List (Str × Int)) (y : Int),
      ChainFromY y xs → ChainFromY (iterNextY xs.length y) ys →
      ChainFromY y (xs ++ ys) := by
  intro xs
  induction xs with
  | nil => intro ys y _ h; simpa [iterNextY] using h
  | cons p ps ih =>
    intro ys y hx hy
    obtain ⟨hp, hps⟩ := hx
    refine ⟨hp, ih ys (nextY y) hps ?_⟩
    simpa [List.length_cons, iterNextY] using hy

theorem renderParas_chain (ps : List Str) :
    ∀ y, ChainFromY y (renderParas ps y).1 ∧
      (renderParas ps y).2 = iterNextY (renderParas ps y).1.length y := by
  induction ps with
  | nil => intro y; exact ⟨trivial, by simp [renderParas, iterNextY]⟩
  | cons para ps ih =>
    intro y
    simp only [renderParas]
    by_cases he : (strip para).isEmpty
    · rw [if_pos he]
      exact ih y
    · rw [if_neg he]
      obtain ⟨ihc, ihs⟩ := ih (drawLinesAux (split_text (strip para) 90) y).2
      constructor
      · refine ChainFromY_append _ _ y (drawLinesAux_chain _ y) ?_
        rw [drawLinesAux_length, ← drawLinesAux_snd]
        exact ihc
      · simp only [List.length_append]
        rw [iterNextY_succ_add, drawLinesAux_length, ← drawLinesAux_snd]
        exact ihs

theorem ChainFromY_chain' :
    ∀ (l : List (Str × Int)) (y : Int), ChainFromY y l →
      List.Chain' (fun a b => b.2 = nextY a.2) l := by
  intro l
  induction l with
  | nil => intro y _; simp
  | cons p ps ih =>
    intro y h
    obtain ⟨hp, hps⟩ := h
    cases ps with
    | nil => simp
    | cons q qs =>
      rw [List.chain'_cons]
      have hq := hps.1
      subst hp
      exact ⟨by rw [hq], ih (nextY p.2) hps⟩

theorem ChainFromY_mem_bounds :
    ∀ (l : List (Str × Int)) (y : Int), ChainFromY y l →
      inch ≤ y → y ≤ topY → ∀ p ∈ l, inch ≤ p.2 ∧ p.2 ≤ topY := by
  intro l
  induction l with
  | nil => intro y _ _ _ p hp; simp at hp
  | cons q qs ih =>
    intro y h hlo hhi p hp
    obtain ⟨hq, hqs⟩ := h
    rcases List.mem_cons.mp hp with rfl | hp
    · rw [hq]; exact ⟨hlo, hhi⟩
    · exact ih (nextY y) hqs (nextY_lower y) (nextY_upper hhi) p hp

theorem renderParas_map_fst (ps : List Str) :
    ∀ y, (renderParas ps y).1.map Prod.fst =
      ((ps.map strip).filter (fun t => !t.isEmpty)).flatMap
        (fun t => split_text t 90) := by
  induction ps with
  | nil => intro y; simp [renderParas]
  | cons para ps ih =>
    intro y
    simp only [renderParas, List.map_cons, List.filter_cons]
    by_cases he : (strip para).isEmpty
    · rw [if_pos he]
      simp only [he, Bool.not_true, ite_false]
      exact ih y
    · rw [if_neg he]
      simp only [he, Bool.not_false, ite_true, List.flatMap_cons]
      rw [List.map_append, drawLinesAux_map_fst, ih]

/-! ## Lemmas about the orchestrator -/

theorem tryBody_upload_error (c : Collaborators) (e : String)
    (h : c.upload_to_blob = Except.error e) : (tryBody c).1 = Except.error e := by
  simp [tryBody, h]

theorem tryBody_analyze_error (c : Collaborators) (e : String) (url : Str)
    (h1 : c.upload_to_blob = Except.ok url)
    (h2 : c.analyze url = Except.error e) : (tryBody c).1 = Except.error e := by
  simp [tryBody, h1, h2]

theorem tryBody_chat_error (c : Collaborators) (e : String) (url : Str)
    (pages : List (List Str))
    (h1 : c.upload_to_blob = Except.ok url)
    (h2 : c.analyze url = Except.ok pages)
    (h3 : c.chat systemContent (mkPrompt pages) = Except.error e) :
    (tryBody c).1 = Except.error e := by
  simp [tryBody, h1, h2, h3]

theorem tryBody_writeTxt_error (c : Collaborators) (e : String) (url : Str)
    (pages : List (List Str)) (content : Str)
    (h1 : c.upload_to_blob = Except.ok url)
    (h2 : c.analyze url = Except.ok pages)
    (h3 : c.chat systemContent (mkPrompt pages) = Except.ok content)
    (h4 : c.writeTxt (strip content) = Except.error e) :
    (tryBody c).1 = Except.error e := by
  simp [tryBody, h1, h2, h3, h4]

theorem tryBody_writePdf_error (c : Collaborators) (e : String) (url : Str)
    (pages : List (List Str)) (content : Str)
    (h1 : c.upload_to_blob = Except.ok url)
    (h2 : c.analyze url = Except.ok pages)
    (h3 : c.chat systemContent (mkPrompt pages) = Except.ok content)
    (h4 : c.writeTxt (strip content) = Except.ok ())
    (h5 : c.writePdf (renderSummaryPdf (strip content)) = Except.error e) :
    (tryBody c).1 = Except.error e := by
  simp [tryBody, h1, h2, h3, h4, h5]

theorem tryBody_all_ok (c : Collaborators) (url : Str)
    (pages : List (List Str)) (content : Str)
    (h1 : c.upload_to_blob = Except.ok url)
    (h2 : c.analyze url = Except.ok pages)
    (h3 : c.chat systemContent (mkPrompt pages) = Except.ok content)
    (h4 : c.writeTxt (strip content) = Except.ok ())
    (h5 : c.writePdf (renderSummaryPdf (strip content)) = Except.ok ()) :
    (tryBody c).1 = Except.ok (strip content) := by
  simp [tryBody, h1, h2, h3, h4, h5]

/-- On a validated request whose pre-`try` steps succeed, the response is
the image of the `try` body under the success/failure conversion. -/
theorem upload_file_try_fst (f : Str) (c : Collaborators)
    (hf : ¬ f.isEmpty = true)
    (hext : allowedExts.contains (lower (splitextExt f)) = true)
    (htemp : c.saveTemp = Except.ok ())
    (hconv : lower (splitextExt f) = dotDocx → c.convertDocx = Except.ok ()) :
    (upload_file ⟨some f⟩ c).1 =
      match (tryBody c).1 with
      | .ok s => HttpResponse.jsonSummary s 200
      | .error e => HttpResponse.jsonError e 500 := by
  simp only [upload_file, hext, if_true, htemp]
  rw [if_neg hf]
  by_cases hd : lower (splitextExt f) = dotDocx
  · rw [if_pos hd, hconv hd]
  · rw [if_neg hd]

/-! ## Claim theorems -/

/-- C3, counterexample: at `maxLineWidth = 2` the single word `"ab"` has
resulting buffer length `2 ≤ 2`, so by the claimed rule it would fit on
the empty buffer and the output would be `["ab"]`; the code instead
closes the empty buffer as a line and yields `["", "ab"]`. -/
theorem split_text_equal_width_cex :
    split_text (toStr "ab") 2 = [[], toStr "ab"] ∧
      ¬ split_text (toStr "ab") 2 = [toStr "ab"] := by
  decide

/-- C3, amended: at each word the greedy rule tests
`len(buffer) + len(word) + 1 ≤ maxLineWidth` — the separating space is
counted even when the buffer is empty — and appends the word (preceded by
a space exactly when the buffer is non-empty) when the test holds;
otherwise the current buffer, even an empty one, is closed as a completed
line and the word starts a new buffer; at end of input a non-empty buffer
is flushed.  Consequently a single word whose length equals
`maxLineWidth` does NOT fit on an empty buffer (it needs
`length + 1 ≤ maxLineWidth`) and produces a leading empty line.
`split_text` equals this rule written as a direct recursion. -/
theorem split_text_follows_greedy_rule (text : Str) (W : Nat) (h : 0 < W) :
    split_text text W = greedyWrap W (pySplit text) [] := by
  simp only [split_text]
  simpa using foldl_step_eq_greedyWrap W (pySplit text) [] []

/-- C3, witness for the amended theorem at a concrete input. -/
theorem split_text_follows_greedy_rule_w :
    split_text (toStr "wrap me now") 7 =
      greedyWrap 7 (pySplit (toStr "wrap me now")) [] :=
  split_text_follows_greedy_rule (toStr "wrap me now") 7 (by decide)

/-- C4: for every text and width, joining the wrapped lines with single
spaces and re-splitting on whitespace reproduces exactly the word
sequence of the input — no word is dropped, reordered or duplicated. -/
theorem split_text_preserves_words (text : Str) (W : Nat) (h : 0 < W) :
    pySplit (joinWS (split_text text W)) = pySplit text :=
  words_preserved text W

/-- C4, witness at a concrete text and width. -/
theorem split_text_preserves_words_w :
    pySplit (joinWS (split_text (toStr "hello world again") 5)) =
      pySplit (toStr "hello world again") :=
  split_text_preserves_words (toStr "hello world again") 5 (by decide)

/-- C5: every produced line has length at most
`max W (length of the longest word)`; moreover every line is either
within the width bound or is a single word of the input. -/
theorem split_text_line_length_bound (text : Str) (W : Nat) (h : 0 < W) :
    ∀ l ∈ split_text text W,
      l.length ≤ max W (maxWordLen (pySplit text)) ∧
        (l.length ≤ W ∨ l ∈ pySplit text) := by
  intro l hl
  have hinv := foldl_step_line_bound W (pySplit text) (pySplit text) [] []
    (fun w hw => hw) (Or.inl (by simp)) (by simp)
  have hP : l.length ≤ W ∨ l ∈ pySplit text := by
    simp only [split_text] at hl
    by_cases h2 :
        (((pySplit text).foldl (split_text_step W) ([], [])).2).isEmpty
    · rw [if_pos h2] at hl
      exact hinv.2 l hl
    · rw [if_neg h2] at hl
      rcases List.mem_append.mp hl with hl | hl
      · exact hinv.2 l hl
      · simp only [List.mem_singleton] at hl
        subst hl
        exact hinv.1
  refine ⟨?_, hP⟩
  rcases hP with hle | hmem
  · exact le_trans hle (le_max_left _ _)
  · exact le_trans (length_le_maxWordLen hmem) (le_max_right _ _)

/-- C5, witness: the oversized single word `"hello"` at width 3. -/
theorem split_text_line_length_bound_w :
    (toStr "hello").length ≤
        max 3 (maxWordLen (pySplit (toStr "hello"))) ∧
      ((toStr "hello").length ≤ 3 ∨ toStr "hello" ∈ pySplit (toStr "hello")) :=
  split_text_line_length_bound (toStr "hello") 3 (by decide)
    (toStr "hello") (by decide)

/-- C6: wrapping is deterministic (`split_text` is a function of its
arguments) and idempotent under re-wrapping at the same width: wrapping
the space-joined wrapped lines again yields the same line sequence. -/
theorem split_text_idempotent (text : Str) (W : Nat) (h : 0 < W) :
    split_text (joinWS (split_text text W)) W = split_text text W :=
  split_text_congr W (words_preserved text W)

/-- C6, witness at a concrete text and width. -/
theorem split_text_idempotent_w :
    split_text (joinWS (split_text (toStr "one two three four") 9)) 9 =
      split_text (toStr "one two three four") 9 :=
  split_text_idempotent (toStr "one two three four") 9 (by decide)

/-- C7: in both pagination loops every line is drawn at a cursor `y` with
`inch ≤ y ≤ pageHeight - inch`, and consecutive draws advance the cursor
by the fixed step unless it would cross the bottom margin, in which case
it resets to the top margin of a new page. -/
theorem pagination_within_margins :
    ∀ (paras : List Str) (summary_text : Str),
      (∀ p ∈ convert_docx_to_pdf paras,
        inch ≤ p.2 ∧ p.2 ≤ pageHeight - inch) ∧
      (∀ p ∈ renderSummaryPdf summary_text,
        inch ≤ p.2 ∧ p.2 ≤ pageHeight - inch) ∧
      List.Chain' (fun a b : Str × Int =>
        b.2 = if a.2 - lineStep < inch then pageHeight - inch
          else a.2 - lineStep) (convert_docx_to_pdf paras) ∧
      List.Chain' (fun a b : Str × Int =>
        b.2 = if a.2 - lineStep < inch then pageHeight - inch
          else a.2 - lineStep) (renderSummaryPdf summary_text) := by
  intro paras s
  have htop1 : inch ≤ topY := by decide
  have htop2 : topY ≤ topY := le_refl topY
  refine ⟨?_, ?_, ?_, ?_⟩
  · exact ChainFromY_mem_bounds _ topY (renderParas_chain paras topY).1
      htop1 htop2
  · exact ChainFromY_mem_bounds _ topY
      (drawLinesAux_chain (split_text s 90) topY) htop1 htop2
  · exact ChainFromY_chain' _ topY (renderParas_chain paras topY).1
  · exact ChainFromY_chain' _ topY (drawLinesAux_chain (split_text s 90) topY)

/-- C7, witness: a concrete drawn line sits within the margins. -/
theorem pagination_within_margins_w :
    inch ≤ ((toStr "hi", (720 : Int)) : Str × Int).2 ∧
      ((toStr "hi", (720 : Int)) : Str × Int).2 ≤ pageHeight - inch :=
  (pagination_within_margins [toStr "hi"] (toStr "x")).1
    (toStr "hi", 720) (by decide)

/-- C8: canonicalization strips each paragraph, skips the empty and
whitespace-only ones, and draws exactly the wrap (at width 90) of the
surviving paragraphs in document order; on the four-paragraph example
exactly the two non-empty paragraphs are rendered, in order. -/
theorem canonicalization_paragraphs :
    (∀ paras : List Str, (convert_docx_to_pdf paras).map Prod.fst =
      ((paras.map strip).filter (fun t => !t.isEmpty)).flatMap
        (fun t => split_text t 90)) ∧
    (convert_docx_to_pdf
        [[], toStr "Hello world", toStr "   ", toStr "Second paragraph"]
      ).map Prod.fst = [toStr "Hello world", toStr "Second paragraph"] := by
  refine ⟨fun paras => renderParas_map_fst paras topY, ?_⟩
  decide

/-- C10: when the word list of the text is non-empty and its first word
has length at least `max_length`, the first output line is the empty
string; and in every output at most the head can be empty — every line
after the first is non-empty. -/
theorem split_text_empty_first_line (text : Str) (W : Nat) :
    (∀ w ws, pySplit text = w :: ws → W ≤ w.length →
      (split_text text W).head? = some []) ∧
    (∀ l ∈ (split_text text W).tail, l ≠ []) := by
  constructor
  · intro w ws hws hlen
    have hstep : split_text_step W ([], []) w = ([[]], w) := by
      simp [split_text_step]
      omega
    simp only [split_text, hws, List.foldl_cons, hstep]
    obtain ⟨suf, hsuf⟩ := foldl_step_fst_prefix W ws ([[]], w)
    by_cases h2 : ((ws.foldl (split_text_step W) ([[]], w)).2).isEmpty
    · rw [if_pos h2, hsuf]
      rfl
    · rw [if_neg h2, hsuf]
      rfl
  · intro l hl
    have hinv := foldl_step_tail_ne_nil W (pySplit text) [] []
      (fun w hw => pySplit_mem_ne_nil text w hw) (by simp) (by simp)
    simp only [split_text] at hl
    by_cases h2 :
        (((pySplit text).foldl (split_text_step W) ([], [])).2).isEmpty
    · rw [if_pos h2] at hl
      exact hinv.1 l hl
    · rw [if_neg h2] at hl
      rcases hF : ((pySplit text).foldl (split_text_step W) ([], [])).1
        with _ | ⟨x, xs⟩
      · rw [hF] at hl
        simp at hl
      · rw [hF] at hl
        simp only [List.cons_append, List.tail_cons] at hl
        rcases List.mem_append.mp hl with hl | hl
        · exact hinv.1 l (by rw [hF]; simpa using hl)
        · simp only [List.mem_singleton] at hl
          subst hl
          intro hc
          exact h2 (by simp [hc])

/-- C10, witness: a first word of length 3 at width 2 yields a leading
empty line, and the remaining lines of that output are non-empty. -/
theorem split_text_empty_first_line_w :
    (split_text (toStr "abc") 2).head? = some [] ∧ toStr "abc" ≠ [] :=
  ⟨(split_text_empty_first_line (toStr "abc") 2).1 (toStr "abc") []
      (by decide) (by decide),
   (split_text_empty_first_line (toStr "abc") 2).2 (toStr "abc") (by decide)⟩

/-- C9: a missing file, an empty filename, or an extension outside the
case-insensitively compared set yields the 400 JSON error and an empty
collaborator-call trace: no temp save, no conversion, no storage upload,
no extraction and no summarization call is made. -/
theorem invalid_input_short_circuits (c : Collaborators) :
    upload_file ⟨none⟩ c =
        (HttpResponse.jsonError "No valid file uploaded" 400, []) ∧
      upload_file ⟨some []⟩ c =
        (HttpResponse.jsonError "No valid file uploaded" 400, []) ∧
      (∀ f : Str, ¬ f.isEmpty = true →
        ¬ allowedExts.contains (lower (splitextExt f)) = true →
        upload_file ⟨some f⟩ c =
          (HttpResponse.jsonError "Unsupported file type" 400, [])) := by
  refine ⟨rfl, rfl, ?_⟩
  intro f hf hext
  simp only [upload_file]
  rw [if_neg hf, if_neg hext]

/-- C9, witness: a `.txt` upload is rejected with no collaborator call. -/
theorem invalid_input_short_circuits_w :
    upload_file ⟨some (toStr "notes.txt")⟩ okCollab =
      (HttpResponse.jsonError "Unsupported file type" 400, []) :=
  (invalid_input_short_circuits okCollab).2.2 (toStr "notes.txt")
    (by decide) (by decide)

/-- C1, counterexample: with every collaborator succeeding except the
docx conversion, which raises `"boom"`, the `.docx` upload does not
produce the generic `jsonError "boom" 500` response — the exception,
raised before the `try` block, escapes the handler uncaught. -/
theorem conversion_error_escapes_cex :
    (upload_file ⟨some (toStr "contract.docx")⟩ convFailCollab).1 =
        HttpResponse.unhandled "boom" ∧
      ¬ (upload_file ⟨some (toStr "contract.docx")⟩ convFailCollab).1 =
        HttpResponse.jsonError "boom" 500 := by
  decide

/-- C1, amended: any exception raised inside the `try` block — the
Artifact Store upload, the Extraction call, or the Summarization call —
is caught at the orchestrator boundary and converted into the generic
JSON failure response `jsonError message 500`; but an exception of the
Canonicalizer (the docx-to-PDF conversion, which runs before the `try`
block) is not caught and escapes the handler uncaught. -/
theorem orchestrator_catch_boundary (f : Str) (c : Collaborators) (e : String)
    (hf : ¬ f.isEmpty = true)
    (hext : allowedExts.contains (lower (splitextExt f)) = true)
    (htemp : c.saveTemp = Except.ok ()) :
    ((lower (splitextExt f) = dotDocx → c.convertDocx = Except.ok ()) →
      ((c.upload_to_blob = Except.error e →
          (upload_file ⟨some f⟩ c).1 = HttpResponse.jsonError e 500) ∧
        (∀ url, c.upload_to_blob = Except.ok url →
          c.analyze url = Except.error e →
          (upload_file ⟨some f⟩ c).1 = HttpResponse.jsonError e 500) ∧
        (∀ url pages, c.upload_to_blob = Except.ok url →
          c.analyze url = Except.ok pages →
          c.chat systemContent (mkPrompt pages) = Except.error e →
          (upload_file ⟨some f⟩ c).1 = HttpResponse.jsonError e 500))) ∧
    (lower (splitextExt f) = dotDocx → c.convertDocx = Except.error e →
      (upload_file ⟨some f⟩ c).1 = HttpResponse.unhandled e) := by
  constructor
  · intro hconv
    refine ⟨?_, ?_, ?_⟩
    · intro h1
      rw [upload_file_try_fst f c hf hext htemp hconv,
        tryBody_upload_error c e h1]
    · intro url h1 h2
      rw [upload_file_try_fst f c hf hext htemp hconv,
        tryBody_analyze_error c e url h1 h2]
    · intro url pages h1 h2 h3
      rw [upload_file_try_fst f c hf hext htemp hconv,
        tryBody_chat_error c e url pages h1 h2 h3]
  · intro hd hconv
    simp only [upload_file, hext, if_true, htemp]
    rw [if_neg hf, if_pos hd, hconv]

/-- C1, witness for the amended theorem: an Artifact Store failure on a
`.pdf` upload yields the generic 500 response. -/
theorem orchestrator_catch_boundary_w :
    (upload_file ⟨some (toStr "contract.pdf")⟩ uploadFailCollab).1 =
      HttpResponse.jsonError "upload failed" 500 :=
  ((orchestrator_catch_boundary (toStr "contract.pdf") uploadFailCollab
      "upload failed" (by decide) (by decide) rfl).1
    (fun _ => rfl)).1 rfl

/-- C2, counterexample: all collaborators succeed except the plain-text
persistence write, which raises `"disk full"`; the run reached a summary
(`strip content0 = "A summary."`), yet the response is the generic 500
error rather than the summary response. -/
theorem persistence_blocks_summary_cex :
    (upload_file ⟨some (toStr "contract.pdf")⟩ persistFailCollab).1 =
        HttpResponse.jsonError "disk full" 500 ∧
      ¬ (upload_file ⟨some (toStr "contract.pdf")⟩ persistFailCollab).1 =
        HttpResponse.jsonSummary (toStr "A summary.") 200 := by
  decide

/-- C2, amended: the persistence writes sit inside the guarded region in
front of the response: once the run reaches a summary, the summary
response is returned exactly when BOTH output artifacts are written
successfully; a failure writing the plain-text or the PDF artifact is
caught by the generic handler and yields `jsonError message 500` instead
of the summary response. -/
theorem summary_response_requires_persistence (f : Str) (c : Collaborators)
    (url : Str) (pages : List (List Str)) (content : Str) (e : String)
    (hf : ¬ f.isEmpty = true)
    (hext : allowedExts.contains (lower (splitextExt f)) = true)
    (htemp : c.saveTemp = Except.ok ())
    (hconv : lower (splitextExt f) = dotDocx → c.convertDocx = Except.ok ())
    (h1 : c.upload_to_blob = Except.ok url)
    (h2 : c.analyze url = Except.ok pages)
    (h3 : c.chat systemContent (mkPrompt pages) = Except.ok content) :
    (c.writeTxt (strip content) = Except.error e →
      (upload_file ⟨some f⟩ c).1 = HttpResponse.jsonError e 500) ∧
    (c.writeTxt (strip content) = Except.ok () →
      c.writePdf (renderSummaryPdf (strip content)) = Except.error e →
      (upload_file ⟨some f⟩ c).1 = HttpResponse.jsonError e 500) ∧
    (c.writeTxt (strip content) = Except.ok () →
      c.writePdf (renderSummaryPdf (strip content)) = Except.ok () →
      (upload_file ⟨some f⟩ c).1 =
        HttpResponse.jsonSummary (strip content) 200) := by
  refine ⟨?_, ?_, ?_⟩
  · intro h4
    rw [upload_file_try_fst f c hf hext htemp hconv,
      tryBody_writeTxt_error c e url pages content h1 h2 h3 h4]
  · intro h4 h5
    rw [upload_file_try_fst f c hf hext htemp hconv,
      tryBody_writePdf_error c e url pages content h1 h2 h3 h4 h5]
  · intro h4 h5
    rw [upload_file_try_fst f c hf hext htemp hconv,
      tryBody_all_ok c url pages content h1 h2 h3 h4 h5]

/-- C2, witness for the amended theorem: with every step succeeding the
summary response is returned. -/
theorem summary_response_requires_persistence_w :
    (upload_file ⟨some (toStr "contract.pdf")⟩ okCollab).1 =
      HttpResponse.jsonSummary (strip content0) 200 :=
  (summary_response_requires_persistence (toStr "contract.pdf") okCollab
      url0 pages0 content0 "unused" (by decide) (by decide) rfl
      (fun _ => rfl) rfl rfl rfl).2.2 rfl rfl

end DocSummarizer

